import Mathlib

/-!
Verification of the extraction engine of `ext4_cp.py` (a cp-like tool whose
source is an ext4 disk image) against its natural-language specification.

The Python source is shallowly embedded below.  The external collaborators
(the `ext4` volume/inode library, Python's `str`/`pathlib`/`os.path`
primitives, and the host filesystem) are modelled explicitly:

* the image (`Image`) gives each inode a directory enumeration
  (`open_dir`) and a byte stream (`open_read`);
* the host filesystem (`Host`) is a flat association list from destination
  path strings to entries; `os.path.exists` / `os.path.islink` /
  `os.path.isdir` are lookups in that list (symbolic-link indirection on
  the host is not modelled: paths are opaque keys);
* Python string primitives (`str.split`, `str.join`, `str.replace`,
  `str.endswith`) and the `pathlib.PurePath` stem operations are
  re-implemented structurally on `List Char` so that every definition
  evaluates inside the kernel;
* unbounded recursion (the directory walk, the conflict-rename `while`
  loop, the chunked copy loop) is made total with explicit fuel; fuel
  exhaustion is the `div` outcome and never occurs in any theorem below.

Observable behaviour is a `Res`: the final host filesystem, a trace of
events (one `Event.call` per Materializer invocation plus one event per
host-filesystem action), and either normal return, a propagating Python
exception with its message, or divergence.
-/

namespace Ext4Cp

/-! ## Character and string utilities (models of Python str primitives) -/

def slashChar : Char := '/'

def dotChar : Char := '.'

def colonChar : Char := ':'

/-- A single-quote character, used to build the NotFound message exactly as
the Python f-string does. -/
def sq : String := ⟨[Char.ofNat 39]⟩

/-- Model of Python `str.split(sep)` for a one-character separator, on
character lists.  `''.split(c)` is `[[]]`, like Python's `['']`. -/
def splitChars (c : Char) : List Char → List (List Char)
  | [] => [[]]
  | x :: xs =>
    match splitChars c xs with
    | [] => [[]]
    | h :: t => if x == c then [] :: h :: t else (x :: h) :: t

/-- Model of Python `str.split(sep)` for a one-character separator. -/
def pySplit (c : Char) (s : String) : List String :=
  (splitChars c s.data).map String.mk

/-- Model of Python `sep.join(list)`. -/
def joinSep (sep : String) : List String → String
  | [] => ""
  | [x] => x
  | x :: xs => x ++ sep ++ joinSep sep xs

/-- Model of Python `str.endswith(suffix)`. -/
def endsWithS (sufx s : String) : Bool :=
  s.data.drop (s.data.length - sufx.data.length) == sufx.data

/-- Model of Python `s[:-1]` (drop the final character). -/
def dropLastChar (s : String) : String := ⟨s.data.dropLast⟩

/-- Model of Python `str.replace("/", sep)`: every slash character is
replaced by the string `sep`. -/
def replaceSlashChars (sep : List Char) : List Char → List Char
  | [] => []
  | x :: xs =>
    if x == slashChar then sep ++ replaceSlashChars sep xs
    else x :: replaceSlashChars sep xs

def pyReplaceSlash (sep : String) (s : String) : String :=
  ⟨replaceSlashChars sep.data s.data⟩

/-- Model of Python `bytes.decode("utf8")` restricted to the byte range the
claims exercise: each byte becomes the character with that code point.
This agrees with UTF-8 decoding on ASCII content such as path strings;
multi-byte sequences are outside the scope of the claims. -/
def decodeAscii (bs : List Nat) : String := ⟨bs.map Char.ofNat⟩

/-- Split a character list at its LAST occurrence of `c`: the first
component keeps `c` as its final character (or is empty when `c` does not
occur), the second component is everything after the last `c`. -/
def splitAtLast (c : Char) : List Char → List Char × List Char
  | [] => ([], [])
  | x :: xs =>
    match splitAtLast c xs with
    | ([], b) => if x == c then ([c], b) else ([], x :: b)
    | (a, b) => (x :: a, b)

/-- Model of the `pathlib.PurePath` stem/suffix split of a file NAME:
the suffix starts at the last dot provided that dot is neither the first
nor the last character of the name (CPython's rule `0 < i < len(name)-1`).
Returns `(stem, suffix)` with `stem ++ suffix = name`. -/
def splitStem (name : List Char) : List Char × List Char :=
  let a := (splitAtLast dotChar name).1
  let b := (splitAtLast dotChar name).2
  if a.length > 1 && !b.isEmpty then (a.dropLast, dotChar :: b) else (name, [])

/-- Decomposition of a destination path string into
(directory part including the final slash, stem of the name, suffix of the
name), as `pathlib.PurePath` sees it.  `PurePath`'s normalisation of
degenerate separators (`//`) is not modelled; no claim exercises it, and
the paths this program builds never contain them. -/
def pathParts (s : String) : List Char × List Char × List Char :=
  let pre := (splitAtLast slashChar s.data).1
  let name := (splitAtLast slashChar s.data).2
  (pre, splitStem name)

/-- Model of `pathlib.PurePath(s).stem`. -/
def stemOf (s : String) : String := ⟨(pathParts s).2.1⟩

/-- Model of `str(pathlib.PurePath(s).with_stem(newStem))`. -/
def withStem (s : String) (newStem : String) : String :=
  ⟨(pathParts s).1 ++ newStem.data ++ (pathParts s).2.2⟩

/-! ## Data model: image, configuration, host filesystem, observations -/

/-- Entry types of the `ext4` library's `InodeType` enumeration. -/
inductive InodeType where
  | FILE
  | DIRECTORY
  | CHARACTER_DEVICE
  | BLOCK_DEVICE
  | FIFO
  | SOCKET
  | SYMBOLIC_LINK
deriving DecidableEq

/-- One `(file_name, inode_idx, file_type)` triple of a directory
enumeration, as yielded by `inode.open_dir()`. -/
abbrev DirEntry := String × Nat × InodeType

/-- The opened ext4 volume (external collaborator).  Inode handles are
their indices; `dirEntries` models `inode.open_dir()` (in the image's
native enumeration order) and `content` models the full byte stream of
`inode.open_read()`. -/
structure Image where
  dirEntries : Nat → List DirEntry
  content : Nat → List Nat
  root : Nat

/-- The parsed command-line configuration (`args`), extended with the two
platform values the source reads globally (`os.sep` and
`sys.platform == "win32"`). -/
structure Args where
  recursive : Bool
  flatten : Bool
  conflict_rename : Bool
  wa_fnames : Bool
  verbose : Nat
  directory : String
  imgfname : String
  os_sep : String
  platform_win32 : Bool
deriving DecidableEq

/-- A host-filesystem entry at a destination path. -/
inductive HostEntry where
  | hfile (data : List Nat)
  | hdir
  | hlink (target : String)
deriving DecidableEq

/-- The host filesystem: a flat association list from destination path to
entry; the first binding for a key is its current entry. -/
structure Host where
  entries : List (String × HostEntry)
deriving DecidableEq

def Host.lookup (fs : Host) (p : String) : Option HostEntry :=
  fs.entries.lookup p

def Host.set (fs : Host) (p : String) (e : HostEntry) : Host :=
  ⟨(p, e) :: fs.entries⟩

/-- Model of `os.path.exists` on the flat host model: some entry is present
at the path.  (Python resolves symlinks here and reports a broken link as
non-existing; the source only ever uses `exists(p) or islink(p)`, for which
presence of any entry is the exact semantics.) -/
def os_path_exists (fs : Host) (p : String) : Bool :=
  (fs.lookup p).isSome

/-- Model of `os.path.islink`. -/
def os_path_islink (fs : Host) (p : String) : Bool :=
  match fs.lookup p with
  | some (.hlink _) => true
  | _ => false

/-- Model of `os.path.isdir` (host symlink indirection not modelled). -/
def os_path_isdir (fs : Host) (p : String) : Bool :=
  match fs.lookup p with
  | some .hdir => true
  | _ => false

/-- Observable actions: one `call` per Materializer invocation (emitted by
the Walker / Path Resolver), and one event per host-filesystem action
performed by the Materializer. -/
inductive Event where
  | call (inode : Nat) (full_path rel_path file_name : String) (file_type : InodeType)
  | writeFile (dst : String) (data : List Nat)
  | mkdir (dst : String)
  | touch (dst : String)
  | symlinkEv (target dst : String)
deriving DecidableEq

/-- Result of one Materializer (`extract`) invocation: the updated host
filesystem, the events it performed, and either the boolean descend signal
or a propagating Python exception. -/
inductive ExtractRes where
  | ok (fs : Host) (evs : List Event) (go_deeper : Bool)
  | exn (fs : Host) (evs : List Event) (msg : String)
deriving DecidableEq

/-- Result of a traversal: normal completion, a propagating exception
(side effects so far are kept, as in Python), or divergence (fuel
exhaustion of the model; Python would recurse forever). -/
inductive Res where
  | ok (fs : Host) (evs : List Event)
  | exn (fs : Host) (evs : List Event) (msg : String)
  | div
deriving DecidableEq

def Res.evs : Res → List Event
  | .ok _ evs => evs
  | .exn _ evs _ => evs
  | .div => []

def prependEvs (pre : List Event) : Res → Res
  | .ok fs evs => .ok fs (pre ++ evs)
  | .exn fs evs m => .exn fs (pre ++ evs) m
  | .div => .div

/-! ## Materializer: `extract` (ext4_cp.py lines 34-115) -/

/-- The chunked copy loop `while data := reader.read(chunk): dst.write(data)`
of lines 71-72, with explicit fuel (each iteration consumes at least one
byte when the chunk size is positive, so `data.length + 1` fuel always
suffices; `read(0)` returns an empty falsy chunk and the loop exits at
once, as in Python). -/
def copyLoopF (chunk : Nat) : Nat → List Nat → List Nat
  | 0, _ => []
  | fuel + 1, data =>
    if data.isEmpty || chunk == 0 then []
    else data.take chunk ++ copyLoopF chunk fuel (data.drop chunk)

/-- Total bytes written by the chunked copy of a byte stream. -/
def copyLoop (chunk : Nat) (data : List Nat) : List Nat :=
  copyLoopF chunk (data.length + 1) data

/-- The chunk size hard-coded at line 71: `64*1024`. -/
def CHUNK : Nat := 64 * 1024

/-- Destination path construction of lines 39-49: the optional destination
directory, the optional relative path and the entry name, with the first
two components joined by a slash and the remainder joined by the separator
(`os.sep`, or `_` when flattening). -/
def dstBase (args : Args) (rel_path file_name : String) : String :=
  let sep := if args.flatten then "_" else args.os_sep
  let l0 : List String :=
    (if args.directory = "" then [] else [args.directory]) ++
      (if rel_path = "" then [] else [rel_path]) ++ [file_name]
  joinSep sep (joinSep "/" (l0.take 2) :: l0.drop 2)

/-- The i-th candidate of the conflict-rename loop: the unchanged path for
`i = 0`, and `with_stem(stem + "_i")` for `i ≥ 1` (line 56). -/
def candidate (base : String) (i : Nat) : String :=
  if i = 0 then base else withStem base (stemOf base ++ "_" ++ toString i)

/-- The `while os.path.exists(u) or os.path.islink(u)` loop of lines 54-56,
with explicit fuel.  The Python loop always terminates because successive
candidates are pairwise distinct strings and the host has finitely many
entries; the fuel chosen in `uniquify` is therefore never exhausted in any
scenario a theorem below describes. -/
def renameLoop (fs : Host) (base : String) : Nat → Nat → String → String
  | 0, _, cur => cur
  | fuel + 1, i, cur =>
    if os_path_exists fs cur || os_path_islink fs cur then
      renameLoop fs base fuel (i + 1) (candidate base (i + 1))
    else cur

/-- Conflict-rename of lines 50-57 (the loop as applied to the computed
destination path). -/
def uniquify (fs : Host) (base : String) : String :=
  renameLoop fs base (fs.entries.length + 2) 0 base

/-- Destination path after the conflict-rename policy (lines 50-57):
renaming applies only when `--conflict-rename` is given and the entry is
not a directory. -/
def dstPath (args : Args) (fs : Host) (rel_path file_name : String) (file_type : InodeType) : String :=
  let base := dstBase args rel_path file_name
  if args.conflict_rename ∧ file_type ≠ .DIRECTORY then uniquify fs base else base

/-- Platform filename workaround of lines 63-69, applied only in the
regular-file branch: with `--wa-fnames` on win32, a destination ending in
`.fw` receives an extra `.bin`. -/
def waAdjust (args : Args) (d : String) : String :=
  if args.wa_fnames && args.platform_win32 && endsWithS ".fw" d then d ++ ".bin" else d

/-- The Materializer `extract` of lines 34-115, parameterised by the copy
chunk size.  Per entry type: regular files are streamed chunk-wise into a
truncate-created destination file; directories are special-cased for
`.`/`..`, skipped without `-R`, only descended into under `--flatten`, and
otherwise created if absent; device/FIFO/socket nodes become empty
placeholder files; symbolic links are re-created from the decoded byte
stream with slashes translated to the active separator, only when no link
exists at the destination yet.  Host calls that Python would fail with an
exception (`open` on a directory, `os.mkdir` or `os.symlink` over an
existing entry) produce `exn`.  Verbose printing is not modelled. -/
def extractC (chunk : Nat) (img : Image) (inode : Nat)
    (path rel_path file_name : String) (file_type : InodeType)
    (args : Args) (fs : Host) : ExtractRes :=
  let sep := if args.flatten then "_" else args.os_sep
  let dst0 := dstPath args fs rel_path file_name file_type
  match file_type with
  | .FILE =>
    let dst_fpath := waAdjust args dst0
    let bytes := copyLoop chunk (img.content inode)
    match fs.lookup dst_fpath with
    | some .hdir => .exn fs [] "IsADirectoryError"
    | _ => .ok (fs.set dst_fpath (.hfile bytes)) [.writeFile dst_fpath bytes] false
  | .DIRECTORY =>
    if file_name = "." ∨ file_name = ".." then .ok fs [] false
    else if !args.recursive then .ok fs [] false
    else if args.flatten then .ok fs [] true
    else if os_path_isdir fs dst0 then .ok fs [] true
    else
      match fs.lookup dst0 with
      | some _ => .exn fs [] "FileExistsError"
      | none => .ok (fs.set dst0 .hdir) [.mkdir dst0] true
  | .CHARACTER_DEVICE | .BLOCK_DEVICE | .FIFO | .SOCKET =>
    match fs.lookup dst0 with
    | some .hdir => .exn fs [] "IsADirectoryError"
    | _ => .ok (fs.set dst0 (.hfile [])) [.touch dst0] false
  | .SYMBOLIC_LINK =>
    let target := pyReplaceSlash sep (decodeAscii (img.content inode))
    if os_path_islink fs dst0 then .ok fs [] false
    else
      match fs.lookup dst0 with
      | some _ => .exn fs [] "FileExistsError"
      | none => .ok (fs.set dst0 (.hlink target)) [.symlinkEv target dst0] false

/-- `extract` as the source runs it, with the 64 KiB chunk size. -/
def extract (img : Image) (inode : Nat) (path rel_path file_name : String)
    (file_type : InodeType) (args : Args) (fs : Host) : ExtractRes :=
  extractC CHUNK img inode path rel_path file_name file_type args fs

/-! ## Recursive Walker: `for_all_entries_do` (lines 118-134) -/

/-- The body of `for_all_entries_do`: iterate over the enumerated triples
in order, invoke the Materializer once per triple (recorded as an
`Event.call`), and recurse into the child's own enumeration exactly when
the Materializer signalled descend.  The recursion (both into children and
along the entry list) is bounded by fuel; Python's recursion is unbounded
and the fuel is chosen large enough in every concrete scenario below. -/
def walkList (img : Image) (args : Args) :
    Nat → List DirEntry → String → String → Host → Res
  | 0, _, _, _, _ => .div
  | _ + 1, [], _, _, fs => .ok fs []
  | fuel + 1, (file_name, inode_idx, file_type) :: rest, full_path, part_path, fs =>
    let sep := if args.flatten then "_" else "/"
    match extract img inode_idx full_path part_path file_name file_type args fs with
    | .exn fs1 evs1 m =>
      .exn fs1 (Event.call inode_idx full_path part_path file_name file_type :: evs1) m
    | .ok fs1 evs1 go_deeper =>
      let head := Event.call inode_idx full_path part_path file_name file_type :: evs1
      if go_deeper then
        let sub_part_path := if part_path = "" then file_name else part_path ++ sep ++ file_name
        match walkList img args fuel (img.dirEntries inode_idx)
            (full_path ++ "/" ++ file_name) sub_part_path fs1 with
        | .div => .div
        | .exn fs2 evs2 m => .exn fs2 (head ++ evs2) m
        | .ok fs2 evs2 =>
          prependEvs (head ++ evs2) (walkList img args fuel rest full_path part_path fs2)
      else prependEvs head (walkList img args fuel rest full_path part_path fs1)

/-- `for_all_entries_do(inode, full_path, part_path, do_func, args)` with
`do_func = extract`: walk the enumeration of `inode`. -/
def for_all_entries_do (img : Image) (args : Args) (fuel : Nat) (inode : Nat)
    (full_path part_path : String) (fs : Host) : Res :=
  walkList img args fuel (img.dirEntries inode) full_path part_path fs

/-! ## Path Resolver: `for_path_do` (lines 137-172) -/

/-- First entry named `name` in the enumeration of `inode`, as the `ext4`
library's name lookup finds it (first match in enumeration order). -/
def lookupChild (img : Image) (inode : Nat) (name : String) : Option Nat :=
  ((img.dirEntries inode).find? (fun e => e.1 = name)).map (fun e => e.2.1)

/-- Model of the `ext4` collaborator call `inode.get_inode(*components)`
(line 147): resolve a chain of names by successive directory lookups;
`none` when some component is missing (the library would raise). -/
def get_inode_chain (img : Image) (inode : Nat) : List String → Option Nat
  | [] => some inode
  | n :: rest =>
    match lookupChild img inode n with
    | none => none
    | some child => get_inode_chain img child rest

/-- The NotFound message of line 167, exactly as the f-string builds it. -/
def notFoundMsg (file_name sub_path : String) : String :=
  sq ++ file_name ++ sq ++ " not found in " ++ sq ++ sub_path ++ sq ++ "."

/-- `for_path_do(inode, current_path, target_path, do_func, args)` with
`do_func = extract` (lines 137-172): split the target on `/`, resolve all
but the last component through the `ext4` library, special-case a final
`.` by walking the parent directly, otherwise scan the parent's
enumeration for the final component, raising `FileNotFoundError` when it
is absent, and extract (and possibly walk) the found entry. -/
def for_path_do (img : Image) (args : Args) (fuel : Nat) (inode : Nat)
    (current_path target_path : String) (fs : Host) : Res :=
  let relative_path := pySplit slashChar target_path
  let lastC := relative_path.getLastD ""
  let go := fun (parent_inode : Nat) (sub_path : String) =>
    if lastC = "." then
      for_all_entries_do img args fuel parent_inode current_path "" fs
    else
      match (img.dirEntries parent_inode).find? (fun e => e.1 = lastC) with
      | none => .exn fs [] (notFoundMsg lastC sub_path)
      | some (file_name, inode_idx, file_type) =>
        match extract img inode_idx sub_path "" file_name file_type args fs with
        | .exn fs1 evs1 m =>
          .exn fs1 (Event.call inode_idx sub_path "" file_name file_type :: evs1) m
        | .ok fs1 evs1 go_deeper =>
          let head := Event.call inode_idx sub_path "" file_name file_type :: evs1
          if go_deeper then
            prependEvs head (for_all_entries_do img args fuel inode_idx
              (sub_path ++ "/" ++ file_name) file_name fs1)
          else .ok fs1 head
  if relative_path.length > 1 then
    match get_inode_chain img inode relative_path.dropLast with
    | none => .exn fs [] "ext4 get_inode: entry not found"
    | some parent_inode =>
      go parent_inode (current_path ++ "/" ++ joinSep "/" relative_path.dropLast)
  else go inode current_path

/-! ## Driver: `main` (lines 175-228) and the `__main__` handler -/

/-- The extraction loop of lines 227-228: each source path is resolved and
walked in turn; an exception from one target propagates immediately, as in
Python, aborting the loop. -/
def driverLoop (img : Image) (args : Args) (fuel : Nat) :
    List String → Host → Res
  | [], fs => .ok fs []
  | src :: rest, fs =>
    match for_path_do img args fuel img.root "" src fs with
    | .div => .div
    | .exn fs1 evs1 m => .exn fs1 evs1 m
    | .ok fs1 evs1 => prependEvs evs1 (driverLoop img args fuel rest fs1)

/-- The `__main__` handler (lines 231-237): normal termination exits 0; any
uncaught exception prints one `Error: <message>` line and exits 10.
Divergence has no exit behaviour (`none`). -/
def topLevel : Res → Option (List String × Nat)
  | .ok _ _ => some ([], 0)
  | .exn _ _ m => some (["Error: " ++ m], 10)
  | .div => none

/-! ## Driver: source-specifier parsing (lines 209-219) -/

/-- Model of Python `fname.split(":", 1)`: the part before the first colon,
and (when a colon occurs) everything after it. -/
def splitColon1 (s : String) : String × Option String :=
  match pySplit colonChar s with
  | [] => (s, none)
  | [x] => (x, none)
  | x :: rest => (x, some (joinSep ":" rest))

/-- Model of Python `s[:-1] if s.endswith("/") else s` (lines 216, 219). -/
def stripTrailingSlash (s : String) : String :=
  if endsWithS "/" s then dropLastChar s else s

/-- Per-specifier processing of lines 212-217: the part before the first
colon must equal the image name taken from the first specifier (else
`ValueError`); the path-within-image is the part after the colon, or `.`
when there is no colon; one trailing slash is stripped. -/
def parseSpecifier (imgfname : String) (fname : String) : Except String String :=
  match splitColon1 fname with
  | (img0, restPath) =>
    if img0 ≠ imgfname then
      .error ("Single command can only extract from one image, not " ++ sq ++ img0 ++ sq ++ ".")
    else .ok (stripTrailingSlash (restPath.getD "."))

/-- The loop of lines 210-217 over all source specifiers. -/
def collectSources (imgfname : String) : List String → Except String (List String)
  | [] => .ok []
  | f :: rest =>
    match parseSpecifier imgfname f with
    | .error e => .error e
    | .ok src =>
      match collectSources imgfname rest with
      | .error e => .error e
      | .ok l => .ok (src :: l)

/-- Lines 209-217 as a whole: the image name is taken from the first
specifier, then every specifier is checked and its path extracted.
(`argparse` guarantees at least one source; the empty case is modelled as
the unreachable error it would be.) -/
def parseSources : List String → Except String (String × List String)
  | [] => .error "usage"
  | s0 :: rest =>
    match collectSources (splitColon1 s0).1 (s0 :: rest) with
    | .error e => .error e
    | .ok l => .ok ((splitColon1 s0).1, l)

/-- Line 219: the destination directory has one trailing slash stripped. -/
def mainNormalizeDirectory (directory : String) : String :=
  stripTrailingSlash directory

/-! ## Observation helpers used by the theorems -/

/-- The loop condition of line 54, `os.path.exists(u) or os.path.islink(u)`:
some entry occupies the path. -/
def pyExistsOrLink (fs : Host) (p : String) : Bool :=
  os_path_exists fs p || os_path_islink fs p

def isCall : Event → Bool
  | .call _ _ _ _ _ => true
  | _ => false

/-- Is this a Materializer invocation whose container path is `fp`? -/
def isCallAt (fp : String) : Event → Bool
  | .call _ fp2 _ _ _ => fp2 = fp
  | _ => false

/-- The Materializer invocations of a trace whose container path is `fp`. -/
def callsTo (fp : String) (evs : List Event) : List Event :=
  evs.filter (isCallAt fp)

def ExtractRes.evs : ExtractRes → List Event
  | .ok _ evs _ => evs
  | .exn _ evs _ => evs

/-- No slash occurs in the string (the destination name sits directly in
its containing directory). -/
def noSlash (s : String) : Prop := slashChar ∉ s.data

/-! ## Concrete fixtures for witnesses and counterexamples -/

/-- A default configuration: no flags, destination `out`, POSIX host. -/
def wArgs : Args :=
  { recursive := false, flatten := false, conflict_rename := false, wa_fnames := false,
    verbose := 0, directory := "out", imgfname := "img", os_sep := "/",
    platform_win32 := false }

/-- Image with one regular file `b` (content byte 66) at the root. -/
def wImgB : Image :=
  { dirEntries := fun i => if i = 1 then [("b", 2, .FILE)] else []
    content := fun i => if i = 2 then [66] else []
    root := 1 }

/-- Image with one symbolic link `l` at the root whose byte stream decodes
to `a/b`. -/
def wImgSym : Image :=
  { dirEntries := fun i => if i = 1 then [("l", 2, .SYMBOLIC_LINK)] else []
    content := fun i => if i = 2 then [97, 47, 98] else []
    root := 1 }

/-- Image with a directory `a` at the root containing a file `f`
(content byte 65). -/
def wImgDeep : Image :=
  { dirEntries := fun i =>
      if i = 1 then [("a", 2, .DIRECTORY)]
      else if i = 2 then [("f", 3, .FILE)]
      else []
    content := fun i => if i = 3 then [65] else []
    root := 1 }

/-- Recursive flatten extraction into `out`. -/
def wArgsFlat : Args := { wArgs with flatten := true, recursive := true }

/-- Recursive flatten extraction with an empty destination directory (as
produced by passing `""` or `/` as the DIRECTORY argument). -/
def wArgsFlatNoDir : Args := { wArgsFlat with directory := "" }

/-! ## Lemmas: the chunked copy loop -/

theorem copyLoopF_eq (chunk : Nat) (hc : 0 < chunk) :
    ∀ (f : Nat) (data : List Nat), data.length < f → copyLoopF chunk f data = data := by
  intro f
  induction f with
  | zero => intro data h; omega
  | succ f ih =>
    intro data h
    rw [copyLoopF]
    by_cases hd : data = []
    · subst hd; simp
    · have hcond : (data.isEmpty || chunk == 0) = false := by
        simp [List.isEmpty_iff, hd]
        omega
      rw [hcond, if_neg (by decide : ¬ (false = true))]
      rw [ih (data.drop chunk) ?_]
      · exact List.take_append_drop chunk data
      · have hlen : (data.drop chunk).length = data.length - chunk := List.length_drop ..
        have hpos : 0 < data.length := List.length_pos.mpr hd
        omega

theorem copyLoop_eq (chunk : Nat) (data : List Nat) (hc : 0 < chunk) :
    copyLoop chunk data = data :=
  copyLoopF_eq chunk hc (data.length + 1) data (by omega)

/-! ## Lemmas: the pathlib stem model -/

theorem splitAtLast_append (c : Char) :
    ∀ l : List Char, (splitAtLast c l).1 ++ (splitAtLast c l).2 = l := by
  intro l
  induction l with
  | nil => rfl
  | cons x xs ih =>
    rw [splitAtLast]
    rcases h : splitAtLast c xs with ⟨a, b⟩
    rw [h] at ih
    cases a with
    | nil => by_cases hx : x == c <;> simp_all
    | cons a0 a1 => simpa using ih

theorem splitAtLast_fst_end (c : Char) :
    ∀ l : List Char, (splitAtLast c l).1 = [] ∨ ∃ t, (splitAtLast c l).1 = t ++ [c] := by
  intro l
  induction l with
  | nil => left; rfl
  | cons x xs ih =>
    rcases h : splitAtLast c xs with ⟨a, b⟩
    rw [h] at ih
    cases a with
    | nil =>
      by_cases hx : x == c
      · right; exact ⟨[], by rw [splitAtLast, h]; simp [hx]⟩
      · left; rw [splitAtLast, h]; simp [hx]
    | cons a0 a1 =>
      rcases ih with h1 | ⟨t, ht⟩
      · simp at h1
      · right
        refine ⟨x :: t, ?_⟩
        rw [splitAtLast, h]
        simp only at ht
        simp [ht]

theorem splitStem_append (n : List Char) :
    (splitStem n).1 ++ (splitStem n).2 = n := by
  rcases h : splitAtLast dotChar n with ⟨a, b⟩
  have hj := splitAtLast_append dotChar n
  rw [h] at hj
  simp only at hj
  rw [splitStem, h]
  simp only
  by_cases hc : (decide (a.length > 1) && !b.isEmpty) = true
  · rw [if_pos hc]
    rcases splitAtLast_fst_end dotChar n with h1 | ⟨t, ht⟩
    · rw [h] at h1
      simp only at h1
      subst h1
      simp at hc
    · rw [h] at ht
      simp only at ht
      subst ht
      simpa [List.dropLast_concat] using hj
  · rw [if_neg hc]
    simp

theorem pathParts_append (s : String) :
    (pathParts s).1 ++ (pathParts s).2.1 ++ (pathParts s).2.2 = s.data := by
  rcases h : splitAtLast slashChar s.data with ⟨pre, name⟩
  have hj := splitAtLast_append slashChar s.data
  rw [h] at hj
  simp only at hj
  rw [pathParts, h]
  simp only
  rw [List.append_assoc, splitStem_append name, hj]

theorem string_data_append (a b : String) : (a ++ b).data = a.data ++ b.data := rfl

theorem withStem_data (s ns : String) :
    (withStem s ns).data = (pathParts s).1 ++ ns.data ++ (pathParts s).2.2 := rfl

/-- A renamed candidate (positive index) is never the original path: its
underlying character list is strictly longer, because the new stem extends
the old one by an underscore and the decimal digits of the index. -/
theorem candidate_pos_ne (base : String) (j : Nat) (hj : 0 < j) :
    candidate base j ≠ base := by
  intro hEq
  have hd : (candidate base j).data = base.data := congrArg String.data hEq
  rw [candidate, if_neg (by omega : ¬ j = 0)] at hd
  rw [withStem_data] at hd
  have hbase : (pathParts base).1 ++ (pathParts base).2.1 ++ (pathParts base).2.2
      = base.data := pathParts_append base
  rw [← hbase] at hd
  have hlen := congrArg List.length hd
  simp only [List.length_append, string_data_append] at hlen
  have hstem : (stemOf base).length = (pathParts base).2.1.length := rfl
  simp at hlen
  omega

/-- The conflict-rename loop, started at candidate `i`, returns the first
free candidate `j ≥ i` when every candidate in between is occupied and the
fuel covers the distance. -/
theorem renameLoop_min (fs : Host) (base : String) (j : Nat)
    (hfree : pyExistsOrLink fs (candidate base j) = false) :
    ∀ (fuel i : Nat), i ≤ j → j - i ≤ fuel →
      (∀ k, i ≤ k → k < j → pyExistsOrLink fs (candidate base k) = true) →
      renameLoop fs base fuel i (candidate base i) = candidate base j := by
  intro fuel
  induction fuel with
  | zero =>
    intro i h1 h2 _
    have : i = j := by omega
    subst this
    rfl
  | succ fuel ih =>
    intro i h1 h2 hocc
    rw [renameLoop]
    by_cases hij : i = j
    · subst hij
      rw [show (os_path_exists fs (candidate base i) || os_path_islink fs (candidate base i))
          = pyExistsOrLink fs (candidate base i) from rfl, hfree]
      simp
    · have hi : pyExistsOrLink fs (candidate base i) = true := hocc i (by omega) (by omega)
      rw [show (os_path_exists fs (candidate base i) || os_path_islink fs (candidate base i))
          = pyExistsOrLink fs (candidate base i) from rfl, hi]
      simp only [if_pos]
      exact ih (i + 1) (by omega) (by omega) (fun k hk1 hk2 => hocc k (by omega) hk2)

/-- `uniquify` (the loop as `extract` invokes it) returns the first free
candidate when one exists within the model's fuel. -/
theorem uniquify_min (fs : Host) (base : String) (j : Nat)
    (hfuel : j ≤ fs.entries.length + 2)
    (hfree : pyExistsOrLink fs (candidate base j) = false)
    (hocc : ∀ k, k < j → pyExistsOrLink fs (candidate base k) = true) :
    uniquify fs base = candidate base j := by
  rw [uniquify, show base = candidate base 0 from rfl]
  exact renameLoop_min fs base j hfree (fs.entries.length + 2) 0 (by omega) (by omega)
    (fun k _ hk2 => hocc k hk2)

/-- On a path with no entry, both existence probes are false. -/
theorem pyExistsOrLink_none (fs : Host) (p : String) (h : fs.lookup p = none) :
    pyExistsOrLink fs p = false := by
  simp [pyExistsOrLink, os_path_exists, os_path_islink, h]

theorem pyExistsOrLink_some (fs : Host) (p : String) (e : HostEntry)
    (h : fs.lookup p = some e) : pyExistsOrLink fs p = true := by
  simp [pyExistsOrLink, os_path_exists, h]

/-- Lookup after `set`: the new binding shadows. -/
theorem host_lookup_set (fs : Host) (p q : String) (e : HostEntry) :
    (fs.set p e).lookup q = if p = q then some e else fs.lookup q := by
  simp only [Host.set, Host.lookup, List.lookup]
  by_cases h : p = q
  · simp [h, beq_iff_eq]
  · have hb : (q == p) = false := by
      simp only [beq_eq_false_iff_ne, ne_eq]
      exact fun hq => absurd hq.symm h
    simp [hb, h]

/-! ## Lemmas: the events one Materializer invocation can emit -/

/-- Exhaustive shape of the events `extract` emits: one `writeFile` at the
(workaround-adjusted) destination for a regular file, one `mkdir` for a
directory (only in recursive, non-flatten mode), one `touch` for a special
node, or one `symlinkEv` carrying the separator-translated target. -/
theorem extractC_evs_shape (chunk : Nat) (img : Image) (inode : Nat)
    (path rel_path file_name : String) (ty : InodeType) (args : Args) (fs : Host) :
    ∀ ev ∈ (extractC chunk img inode path rel_path file_name ty args fs).evs,
      (ty = .FILE ∧
        ev = .writeFile (waAdjust args (dstPath args fs rel_path file_name ty))
          (copyLoop chunk (img.content inode))) ∨
      (ty = .DIRECTORY ∧ args.recursive = true ∧ args.flatten = false ∧
        ev = .mkdir (dstPath args fs rel_path file_name ty)) ∨
      (ev = .touch (dstPath args fs rel_path file_name ty)) ∨
      (ty = .SYMBOLIC_LINK ∧
        ev = .symlinkEv
          (pyReplaceSlash (if args.flatten then "_" else args.os_sep)
            (decodeAscii (img.content inode)))
          (dstPath args fs rel_path file_name ty)) := by
  intro ev hev
  cases ty <;> simp only [extractC] at hev
  case FILE =>
    left
    refine ⟨rfl, ?_⟩
    split at hev <;> simp_all [ExtractRes.evs]
  case DIRECTORY =>
    right; left
    split at hev
    · simp [ExtractRes.evs] at hev
    · split at hev
      · simp [ExtractRes.evs] at hev
      · split at hev
        · simp [ExtractRes.evs] at hev
        · split at hev
          · simp [ExtractRes.evs] at hev
          · split at hev <;> simp_all [ExtractRes.evs]
  case SYMBOLIC_LINK =>
    right; right; right
    refine ⟨rfl, ?_⟩
    split at hev
    · simp [ExtractRes.evs] at hev
    · split at hev <;> simp_all [ExtractRes.evs]
  all_goals
    right; right; left
    split at hev <;> simp_all [ExtractRes.evs]

/-! ## Lemmas: traces of the Recursive Walker -/

theorem mem_prependEvs (pre : List Event) (r : Res) (ev : Event)
    (h : ev ∈ (prependEvs pre r).evs) : ev ∈ pre ∨ ev ∈ r.evs := by
  cases r <;> simp_all [prependEvs, Res.evs]

/-- Induction principle for walker traces.  `N` constrains entry names
(established from the image), `I` is an invariant of the relative-path
context maintained along descents, and `P` is the property of every event,
indexed by the container path and relative path of the walk level emitting
it. -/
theorem walkList_evs_ind (img : Image) (args : Args)
    (N : String → Prop) (I : String → Prop) (P : String → String → Event → Prop)
    (hnames : ∀ i e, e ∈ img.dirEntries i → N e.1)
    (hcall : ∀ inode fp p n ty, I p → N n → P fp p (Event.call inode fp p n ty))
    (hext : ∀ inode fp p n ty fs ev, I p → N n →
      ev ∈ (extract img inode fp p n ty args fs).evs → P fp p ev)
    (hIsub : ∀ p n, I p → N n →
      I (if p = "" then n else p ++ (if args.flatten then "_" else "/") ++ n))
    (hmono : ∀ fp p n ev, N n → I p →
      P (fp ++ "/" ++ n) (if p = "" then n else p ++ (if args.flatten then "_" else "/") ++ n) ev →
      P fp p ev) :
    ∀ (fuel : Nat) (entries : List DirEntry) (fp p : String) (fs : Host),
      (∀ e ∈ entries, ∃ i, e ∈ img.dirEntries i) → I p →
      ∀ ev ∈ (walkList img args fuel entries fp p fs).evs, P fp p ev := by
  intro fuel
  induction fuel with
  | zero =>
    intro entries fp p fs _ _ ev hev
    simp [walkList, Res.evs] at hev
  | succ fuel ih =>
    intro entries fp p fs hen hI ev hev
    cases entries with
    | nil => simp [walkList, Res.evs] at hev
    | cons e rest =>
      rcases e with ⟨file_name, inode_idx, file_type⟩
      have hN : N file_name := by
        rcases hen _ (List.mem_cons_self _ _) with ⟨i, hi⟩
        exact hnames i _ hi
      have hrest : ∀ e ∈ rest, ∃ i, e ∈ img.dirEntries i :=
        fun e he => hen e (List.mem_cons_of_mem _ he)
      simp only [walkList] at hev
      rcases hx : extract img inode_idx fp p file_name file_type args fs with
        ⟨fs1, evs1, gd⟩ | ⟨fs1, evs1, m⟩
      · rw [hx] at hev
        simp only at hev
        have hhead : ∀ ev2, ev2 ∈ Event.call inode_idx fp p file_name file_type :: evs1 →
            P fp p ev2 := by
          intro ev2 hev2
          rcases List.mem_cons.mp hev2 with h1 | h1
          · subst h1; exact hcall _ _ _ _ _ hI hN
          · exact hext _ _ _ _ _ _ _ hI hN (by rw [hx]; exact h1)
        cases gd with
        | false =>
          simp only [Bool.false_eq_true, if_neg, if_false] at hev
          rcases mem_prependEvs _ _ _ hev with h1 | h1
          · exact hhead _ h1
          · exact ih rest fp p fs1 hrest hI ev h1
        | true =>
          simp only [if_pos, if_true] at hev
          have hIsub2 := hIsub p file_name hI hN
          rcases hw : walkList img args fuel (img.dirEntries inode_idx)
              (fp ++ "/" ++ file_name)
              (if p = "" then file_name else p ++ (if args.flatten then "_" else "/") ++ file_name)
              fs1 with ⟨fs2, evs2⟩ | ⟨fs2, evs2, m⟩ | _
          all_goals rw [hw] at hev
          · simp only at hev
            rcases mem_prependEvs _ _ _ hev with h1 | h1
            · rcases List.mem_append.mp h1 with h2 | h2
              · exact hhead _ h2
              · refine hmono fp p file_name ev hN hI ?_
                have := ih (img.dirEntries inode_idx) (fp ++ "/" ++ file_name) _ fs1
                  (fun e he => ⟨inode_idx, he⟩) hIsub2 ev
                rw [hw] at this
                exact this h2
            · exact ih rest fp p fs2 hrest hI ev h1
          · simp only [Res.evs] at hev
            rcases List.mem_append.mp hev with h1 | h1
            · exact hhead _ h1
            · refine hmono fp p file_name ev hN hI ?_
              have := ih (img.dirEntries inode_idx) (fp ++ "/" ++ file_name) _ fs1
                (fun e he => ⟨inode_idx, he⟩) hIsub2 ev
              rw [hw] at this
              exact this h1
          · simp [Res.evs] at hev
      · rw [hx] at hev
        simp only [Res.evs] at hev
        rcases List.mem_cons.mp hev with h1 | h1
        · subst h1; exact hcall _ _ _ _ _ hI hN
        · exact hext _ _ _ _ _ _ _ hI hN (by rw [hx]; exact h1)

theorem string_eq_of_data {a b : String} (h : a.data = b.data) : a = b :=
  congrArg String.mk h

theorem string_append_assoc (a b c : String) : a ++ b ++ c = a ++ (b ++ c) :=
  string_eq_of_data (by simp [string_data_append])

theorem string_length_append (a b : String) : (a ++ b).length = a.length + b.length := by
  show (a ++ b).data.length = a.data.length + b.data.length
  rw [string_data_append, List.length_append]

theorem noSlash_append (a b : String) (ha : noSlash a) (hb : noSlash b) :
    noSlash (a ++ b) := by
  simp only [noSlash, string_data_append, List.mem_append] at *
  tauto

/-- Under `--flatten`, no walk ever emits a `mkdir`: the Materializer only
creates directories in the recursive non-flatten branch. -/
theorem walkList_flatten_no_mkdir (img : Image) (args : Args) (hfl : args.flatten = true) :
    ∀ (fuel : Nat) (entries : List DirEntry) (fp p : String) (fs : Host) (d : String),
      (∀ e ∈ entries, ∃ i, e ∈ img.dirEntries i) →
      Event.mkdir d ∉ (walkList img args fuel entries fp p fs).evs := by
  intro fuel entries fp p fs d hen hmem
  have := walkList_evs_ind img args (fun _ => True) (fun _ => True)
    (fun _ _ ev => ∀ d2, ev ≠ Event.mkdir d2)
    (fun _ _ _ => trivial)
    (fun inode fp2 p2 n ty _ _ d2 => by simp)
    (fun inode fp2 p2 n ty fs2 ev _ _ hev d2 => by
      rcases extractC_evs_shape CHUNK img inode fp2 p2 n ty args fs2 ev hev with
        ⟨_, h⟩ | ⟨_, _, hfl2, _⟩ | h | ⟨_, h⟩
      · subst h; simp
      · rw [hfl] at hfl2; exact absurd hfl2 (by simp)
      · subst h; simp
      · subst h; simp)
    (fun _ _ _ _ => trivial)
    (fun _ _ _ _ _ _ h => h)
    fuel entries fp p fs hen trivial (Event.mkdir d) hmem d
  exact this rfl

/-- Every Materializer invocation recorded in a walk's trace happened at
the walk's own container path or strictly deeper (container paths strictly
lengthen along descents). -/
theorem walkList_call_fp (img : Image) (args : Args) :
    ∀ (fuel : Nat) (entries : List DirEntry) (fp p : String) (fs : Host),
      (∀ e ∈ entries, ∃ i, e ∈ img.dirEntries i) →
      ∀ ev ∈ (walkList img args fuel entries fp p fs).evs,
      ∀ i fp2 p2 n2 t2, ev = Event.call i fp2 p2 n2 t2 → fp2 = fp ∨ fp.length < fp2.length := by
  intro fuel entries fp p fs hen ev hev
  exact walkList_evs_ind img args (fun _ => True) (fun _ => True)
    (fun fp0 _ ev => ∀ i fp2 p2 n2 t2, ev = Event.call i fp2 p2 n2 t2 →
      fp2 = fp0 ∨ fp0.length < fp2.length)
    (fun _ _ _ => trivial)
    (fun inode fp2 p2 n ty _ _ i fp3 p3 n3 t3 h => by
      simp only [Event.call.injEq] at h
      exact Or.inl h.2.1.symm)
    (fun inode fp2 p2 n ty fs2 ev2 _ _ hev2 i fp3 p3 n3 t3 h => by
      rcases extractC_evs_shape CHUNK img inode fp2 p2 n ty args fs2 ev2 hev2 with
        ⟨_, h2⟩ | ⟨_, _, _, h2⟩ | h2 | ⟨_, h2⟩ <;> subst h2 <;> simp at h)
    (fun _ _ _ _ => trivial)
    (fun fp0 p0 n ev2 _ _ hP i fp3 p3 n3 t3 h => by
      rcases hP i fp3 p3 n3 t3 h with h2 | h2
      · right
        rw [h2, string_length_append, string_length_append]
        have : 0 < ("/" : String).length := by decide
        omega
      · right
        rw [string_length_append, string_length_append] at h2
        omega)
    fuel entries fp p fs hen trivial ev hev

/-- Events of one `extract` invocation are never `call` events. -/
theorem extract_evs_not_call (img : Image) (inode : Nat)
    (path rel_path file_name : String) (ty : InodeType) (args : Args) (fs : Host) :
    ∀ ev ∈ (extract img inode path rel_path file_name ty args fs).evs, ∀ fp,
      isCallAt fp ev = false := by
  intro ev hev fp
  rcases extractC_evs_shape CHUNK img inode path rel_path file_name ty args fs ev hev with
    ⟨_, h⟩ | ⟨_, _, _, h⟩ | h | ⟨_, h⟩ <;> subst h <;> rfl

/-- Destination path under `--flatten` with a non-empty destination root:
the root, a slash, and the relative path joined to the name by `_`. -/
theorem dstBase_flatten_eq (args : Args) (hfl : args.flatten = true)
    (hdir : args.directory ≠ "") (rel name : String) :
    dstBase args rel name =
      args.directory ++ "/" ++ (if rel = "" then name else rel ++ "_" ++ name) := by
  by_cases hrel : rel = ""
  · simp [dstBase, hfl, hdir, hrel, joinSep]
  · simp only [dstBase, hfl, if_neg hdir, if_neg hrel, if_true]
    simp [joinSep, string_append_assoc]

/-- Under `--flatten` with a non-empty destination root, no conflict
renaming and no platform workaround in effect, every file written by a
walk lands directly under the destination root: its path is the root, one
slash, and a slash-free name. -/
theorem walkList_flatten_writes (img : Image) (args : Args)
    (hfl : args.flatten = true) (hdir : args.directory ≠ "")
    (hcr : args.conflict_rename = false) (hwin : args.platform_win32 = false)
    (hnames : ∀ i e, e ∈ img.dirEntries i → noSlash e.1) :
    ∀ (fuel : Nat) (entries : List DirEntry) (fp p : String) (fs : Host),
      (∀ e ∈ entries, ∃ i, e ∈ img.dirEntries i) → noSlash p →
      ∀ d data, Event.writeFile d data ∈ (walkList img args fuel entries fp p fs).evs →
      ∃ s, noSlash s ∧ d = args.directory ++ "/" ++ s := by
  intro fuel entries fp p fs hen hp d data hmem
  have hu : noSlash "_" := by unfold noSlash; decide
  have := walkList_evs_ind img args noSlash noSlash
    (fun _ _ ev => ∀ d2 data2, ev = Event.writeFile d2 data2 →
      ∃ s, noSlash s ∧ d2 = args.directory ++ "/" ++ s)
    hnames
    (fun inode fp2 p2 n ty _ _ d2 data2 h => by simp at h)
    (fun inode fp2 p2 n ty fs2 ev _ _ hev d2 data2 h => by
      rcases extractC_evs_shape CHUNK img inode fp2 p2 n ty args fs2 ev hev with
        ⟨hty, h2⟩ | ⟨_, _, _, h2⟩ | h2 | ⟨_, h2⟩
      all_goals rw [h2] at h
      all_goals try simp at h
      subst hty
      refine ⟨if p2 = "" then n else p2 ++ "_" ++ n, ?_, ?_⟩
      · split
        · assumption
        · exact noSlash_append _ _ (noSlash_append _ _ (by assumption) hu) (by assumption)
      · rw [← h.1]
        rw [show dstPath args fs2 p2 n InodeType.FILE = dstBase args p2 n by
          simp [dstPath, hcr]]
        rw [show waAdjust args (dstBase args p2 n) = dstBase args p2 n by
          simp [waAdjust, hwin]]
        exact dstBase_flatten_eq args hfl hdir p2 n)
    (fun p2 n hp2 hn => by
      rw [hfl]
      split
      · assumption
      · exact noSlash_append _ _ (noSlash_append _ _ hp2 hu) hn)
    (fun _ _ _ _ _ _ h => h)
    fuel entries fp p fs hen hp (Event.writeFile d data) hmem
  exact this d data rfl

/-- Filtering a deeper walk's trace for calls at the shallower container
path yields nothing: all its `call` events carry strictly longer paths. -/
theorem walkList_deeper_no_calls (img : Image) (args : Args)
    (fuel : Nat) (entries : List DirEntry) (fp n p2 : String) (fs : Host)
    (hen : ∀ e ∈ entries, ∃ i, e ∈ img.dirEntries i) :
    ∀ ev ∈ (walkList img args fuel entries (fp ++ "/" ++ n) p2 fs).evs,
      isCallAt fp ev = false := by
  intro ev hev
  cases ev with
  | call i fp2 p3 n3 t3 =>
    have h := walkList_call_fp img args fuel entries (fp ++ "/" ++ n) p2 fs hen
      (Event.call i fp2 p3 n3 t3) hev i fp2 p3 n3 t3 rfl
    have hlt : fp.length < fp2.length := by
      rcases h with h | h
      · rw [h, string_length_append, string_length_append]
        have : 0 < ("/" : String).length := by decide
        omega
      · rw [string_length_append, string_length_append] at h
        omega
    have hne : fp2 ≠ fp := fun hEq => by rw [hEq] at hlt; omega
    simp [isCallAt, hne]
  | writeFile d data => rfl
  | mkdir d => rfl
  | touch d => rfl
  | symlinkEv t d => rfl

/-- Order preservation (walk level): when a walk of an entry list completes
normally, the Materializer invocations recorded at the walk's own container
path are exactly one per entry, in the list's order. -/
theorem walkList_callsTo (img : Image) (args : Args) :
    ∀ (fuel : Nat) (entries : List DirEntry) (fp p : String) (fs fs2 : Host)
      (evs : List Event),
      (∀ e ∈ entries, ∃ i, e ∈ img.dirEntries i) →
      walkList img args fuel entries fp p fs = .ok fs2 evs →
      callsTo fp evs = entries.map (fun e => Event.call e.2.1 fp p e.1 e.2.2) := by
  intro fuel
  induction fuel with
  | zero =>
    intro entries fp p fs fs2 evs _ h
    simp [walkList] at h
  | succ fuel ih =>
    intro entries fp p fs fs2 evs hen h
    cases entries with
    | nil =>
      simp only [walkList, Res.ok.injEq] at h
      rw [← h.2]
      simp [callsTo]
    | cons e rest =>
      rcases e with ⟨file_name, inode_idx, file_type⟩
      have hrest : ∀ e ∈ rest, ∃ i, e ∈ img.dirEntries i :=
        fun e he => hen e (List.mem_cons_of_mem _ he)
      simp only [walkList] at h
      rcases hx : extract img inode_idx fp p file_name file_type args fs with
        ⟨fs1, evs1, gd⟩ | ⟨fs1, evs1, m⟩
      · rw [hx] at h
        simp only at h
        have hcallhead : isCallAt fp (Event.call inode_idx fp p file_name file_type) = true := by
          simp [isCallAt]
        cases gd with
        | false =>
          simp only [Bool.false_eq_true, if_false] at h
          rcases hw : walkList img args fuel rest fp p fs1 with ⟨fs3, evs3⟩ | _ | _
          all_goals rw [hw] at h
          all_goals simp only [prependEvs, Res.ok.injEq] at h
          · rw [← h.2]
            rw [callsTo, List.filter_append, List.filter_cons]
            rw [hcallhead]
            have h1 : evs1.filter (isCallAt fp) = [] := by
              apply List.filter_eq_nil_iff.mpr
              intro ev hev
              simp [extract_evs_not_call img inode_idx fp p file_name file_type args fs ev
                (by rw [hx]; exact hev) fp]
            rw [h1]
            have h2 := ih rest fp p fs1 fs3 evs3 hrest hw
            rw [callsTo] at h2
            rw [h2]
            simp
          · exact absurd h (by simp)
          · exact absurd h (by simp)
        | true =>
          simp only [if_true] at h
          rcases hw : walkList img args fuel (img.dirEntries inode_idx)
              (fp ++ "/" ++ file_name)
              (if p = "" then file_name else p ++ (if args.flatten then "_" else "/") ++ file_name)
              fs1 with ⟨fs3, evs3⟩ | _ | _
          all_goals rw [hw] at h
          · simp only at h
            rcases hw2 : walkList img args fuel rest fp p fs3 with ⟨fs4, evs4⟩ | _ | _
            all_goals rw [hw2] at h
            all_goals simp only [prependEvs, Res.ok.injEq] at h
            · rw [← h.2]
              rw [callsTo, List.filter_append, List.filter_append, List.filter_cons]
              rw [hcallhead]
              have h1 : evs1.filter (isCallAt fp) = [] := by
                apply List.filter_eq_nil_iff.mpr
                intro ev hev
                simp [extract_evs_not_call img inode_idx fp p file_name file_type args fs ev
                  (by rw [hx]; exact hev) fp]
              have h3 : evs3.filter (isCallAt fp) = [] := by
                apply List.filter_eq_nil_iff.mpr
                intro ev hev
                have hdeep := walkList_deeper_no_calls img args fuel (img.dirEntries inode_idx)
                  fp file_name
                  (if p = "" then file_name
                    else p ++ (if args.flatten then "_" else "/") ++ file_name)
                  fs1 (fun e he => ⟨inode_idx, he⟩)
                rw [hw] at hdeep
                simp [hdeep ev hev]
              rw [h1, h3]
              have h2 := ih rest fp p fs3 fs4 evs4 hrest hw2
              rw [callsTo] at h2
              rw [h2]
              simp
            · exact absurd h (by simp)
            · exact absurd h (by simp)
          · simp at h
          · simp at h
      · rw [hx] at h
        simp at h

/-- With `--conflict-rename` off, the destination path is the plain
construction of lines 39-49. -/
theorem dstPath_no_rename (args : Args) (fs : Host) (rel name : String)
    (ty : InodeType) (hcr : args.conflict_rename = false) :
    dstPath args fs rel name ty = dstBase args rel name := by
  simp [dstPath, hcr]

theorem candidate_zero (base : String) : candidate base 0 = base := by
  simp [candidate]

/-- Evaluation of the regular-file branch of `extract`: with a positive
chunk size and no directory in the way, the destination file holds exactly
the inode's byte stream. -/
theorem extract_file_eq (chunk : Nat) (img : Image) (inode : Nat)
    (path rel_path file_name : String) (args : Args) (fs : Host)
    (hc : 0 < chunk)
    (hnd : fs.lookup (waAdjust args (dstPath args fs rel_path file_name .FILE)) ≠ some .hdir) :
    extractC chunk img inode path rel_path file_name .FILE args fs =
      .ok (fs.set (waAdjust args (dstPath args fs rel_path file_name .FILE))
            (.hfile (img.content inode)))
        [.writeFile (waAdjust args (dstPath args fs rel_path file_name .FILE))
            (img.content inode)] false := by
  cases h : fs.lookup (waAdjust args (dstPath args fs rel_path file_name .FILE)) with
  | none => simp [extractC, h, copyLoop_eq _ _ hc]
  | some e =>
    cases e with
    | hdir => exact absurd h hnd
    | hfile data => simp [extractC, h, copyLoop_eq _ _ hc]
    | hlink t => simp [extractC, h, copyLoop_eq _ _ hc]

/-! ## Claim theorems -/

/-- Claim C8: resolving the target path `.` against a starting inode
performs no name lookup and equals invoking the Recursive Walker directly
on that inode with an empty relative-path context — the two runs are the
same `Res`, hence produce the same sequence of Materializer invocations. -/
theorem c8_dot_resolution_is_walker (img : Image) (args : Args) (fuel : Nat)
    (inode : Nat) (current_path : String) (fs : Host) :
    for_path_do img args fuel inode current_path "." fs =
      for_all_entries_do img args fuel inode current_path "" fs := rfl

/-- Claim C2: for a regular-file entry, the bytes written into the
destination file are exactly the bytes of the inode's stream, for any
positive internal chunk size — chunking is not observable in the
destination content. -/
theorem c2_file_bytes_identical (chunk : Nat) (img : Image) (inode : Nat)
    (path rel_path file_name : String) (args : Args) (fs : Host)
    (hc : 0 < chunk)
    (hnd : fs.lookup (waAdjust args (dstPath args fs rel_path file_name .FILE)) ≠ some .hdir) :
    extractC chunk img inode path rel_path file_name .FILE args fs =
      .ok (fs.set (waAdjust args (dstPath args fs rel_path file_name .FILE))
            (.hfile (img.content inode)))
        [.writeFile (waAdjust args (dstPath args fs rel_path file_name .FILE))
            (img.content inode)] false :=
  extract_file_eq chunk img inode path rel_path file_name args fs hc hnd

theorem c2_witness :
    0 < 3 ∧
    extractC 3 wImgB 2 "" "" "b" .FILE wArgs ⟨[]⟩ =
      .ok (Host.set ⟨[]⟩ (waAdjust wArgs (dstPath wArgs ⟨[]⟩ "" "b" .FILE))
            (.hfile (wImgB.content 2)))
        [.writeFile (waAdjust wArgs (dstPath wArgs ⟨[]⟩ "" "b" .FILE))
            (wImgB.content 2)] false :=
  ⟨by decide,
   c2_file_bytes_identical 3 wImgB 2 "" "" "b" wArgs ⟨[]⟩ (by decide) (by decide)⟩

/-- Claim C5: when a target path's final component (other than the
special component `.`, which takes the whole-directory branch) is absent
from its parent directory's enumeration, the Path Resolver raises
`FileNotFoundError` with a message naming exactly that component and its
containing path, leaving the host filesystem untouched and invoking no
Materializer (empty trace).  The first conjunct is the single-component
case (the parent is the starting inode); the second resolves the leading
components through the image library first. -/
theorem c5_notfound_message :
    (∀ (img : Image) (args : Args) (fuel inode : Nat) (cp target last : String) (fs : Host),
      pySplit slashChar target = [last] → last ≠ "." →
      (∀ e ∈ img.dirEntries inode, e.1 ≠ last) →
      for_path_do img args fuel inode cp target fs = .exn fs [] (notFoundMsg last cp)) ∧
    (∀ (img : Image) (args : Args) (fuel inode : Nat) (cp target : String)
      (inits : List String) (last : String) (parent : Nat) (fs : Host),
      pySplit slashChar target = inits ++ [last] → inits ≠ [] → last ≠ "." →
      get_inode_chain img inode inits = some parent →
      (∀ e ∈ img.dirEntries parent, e.1 ≠ last) →
      for_path_do img args fuel inode cp target fs =
        .exn fs [] (notFoundMsg last (cp ++ "/" ++ joinSep "/" inits))) := by
  constructor
  · intro img args fuel inode cp target last fs hsplit hdot hnone
    have hfind : (img.dirEntries inode).find? (fun e => e.1 = last) = none := by
      apply List.find?_eq_none.mpr
      intro e he
      simp [hnone e he]
    simp [for_path_do, hsplit, hdot, hfind]
  · intro img args fuel inode cp target inits last parent fs hsplit hinits hdot hchain hnone
    have hfind : (img.dirEntries parent).find? (fun e => e.1 = last) = none := by
      apply List.find?_eq_none.mpr
      intro e he
      simp [hnone e he]
    have hlen : (inits ++ [last]).length > 1 := by
      have : 0 < inits.length := List.length_pos.mpr hinits
      simp [List.length_append]
      omega
    have hlast : (inits ++ [last]).getLastD "" = last := by
      simp [List.getLastD_concat]
    have hdrop : (inits ++ [last]).dropLast = inits := by
      simp [List.dropLast_concat]
    simp [for_path_do, hsplit, hlen, hlast, hdrop, hchain, hdot, hfind]
    exact fun h => absurd h hinits

theorem c5_witness :
    pySplit slashChar "a/zz" = ["a"] ++ ["zz"] ∧ (["a"] : List String) ≠ [] ∧
    ("zz" : String) ≠ "." ∧ get_inode_chain wImgDeep 1 ["a"] = some 2 ∧
    for_path_do wImgDeep wArgs 5 1 "" "a/zz" ⟨[]⟩ =
      .exn ⟨[]⟩ [] (notFoundMsg "zz" ("" ++ "/" ++ joinSep "/" ["a"])) := by
  refine ⟨by decide, by decide, by decide, by decide, ?_⟩
  exact c5_notfound_message.2 wImgDeep wArgs 5 1 "" "a/zz" ["a"] "zz" 2 ⟨[]⟩
    (by decide) (by decide) (by decide) (by decide) (by decide)

/-- Claim C7: under one configuration with `--conflict-rename` off (the
default), re-extraction over pre-existing output is type-asymmetric: a
regular-file entry whose destination already holds a file is overwritten
by truncate-create, while a symbolic-link entry whose destination is
already a symbolic link performs no host action at all. -/
theorem c7_overwrite_asymmetry :
    (∀ (chunk : Nat) (img : Image) (inode : Nat) (path rel name : String)
      (args : Args) (fs : Host) (old : List Nat),
      args.conflict_rename = false → 0 < chunk →
      fs.lookup (waAdjust args (dstBase args rel name)) = some (.hfile old) →
      extractC chunk img inode path rel name .FILE args fs =
        .ok (fs.set (waAdjust args (dstBase args rel name)) (.hfile (img.content inode)))
          [.writeFile (waAdjust args (dstBase args rel name)) (img.content inode)] false) ∧
    (∀ (chunk : Nat) (img : Image) (inode : Nat) (path rel name : String)
      (args : Args) (fs : Host),
      args.conflict_rename = false →
      os_path_islink fs (dstBase args rel name) = true →
      extractC chunk img inode path rel name .SYMBOLIC_LINK args fs = .ok fs [] false) := by
  constructor
  · intro chunk img inode path rel name args fs old hcr hc hold
    have hd := dstPath_no_rename args fs rel name .FILE hcr
    simp [extractC, hd, hold, copyLoop_eq _ _ hc]
  · intro chunk img inode path rel name args fs hcr hlink
    have hd := dstPath_no_rename args fs rel name .SYMBOLIC_LINK hcr
    simp [extractC, hd, hlink]

theorem c7_witness :
    wArgs.conflict_rename = false ∧
    extractC 3 wImgB 2 "" "" "b" .FILE wArgs ⟨[("out/b", .hfile [1, 2])]⟩ =
      .ok (Host.set ⟨[("out/b", .hfile [1, 2])]⟩ (waAdjust wArgs (dstBase wArgs "" "b"))
            (.hfile (wImgB.content 2)))
        [.writeFile (waAdjust wArgs (dstBase wArgs "" "b")) (wImgB.content 2)] false ∧
    extractC 3 wImgSym 2 "" "" "l" .SYMBOLIC_LINK wArgs ⟨[("out/l", .hlink "old")]⟩ =
      .ok ⟨[("out/l", .hlink "old")]⟩ [] false :=
  ⟨by decide,
   c7_overwrite_asymmetry.1 3 wImgB 2 "" "" "b" wArgs ⟨[("out/b", .hfile [1, 2])]⟩ [1, 2]
     (by decide) (by decide) (by decide),
   c7_overwrite_asymmetry.2 3 wImgSym 2 "" "" "l" wArgs ⟨[("out/l", .hlink "old")]⟩
     (by decide) (by decide)⟩

/-- Claim C6, counterexample: with `--flatten` on a POSIX host
(`os.sep = "/"`), the Materializer translates the link target's slashes to
the flatten joining character `_`, not to the host's separator convention:
the link created for a target decoding to `a/b` points at `a_b`, while the
host-convention translation of `a/b` is `a/b` itself. -/
theorem c6_counterexample :
    extract wImgSym 2 "" "" "l" .SYMBOLIC_LINK { wArgs with flatten := true } ⟨[]⟩ =
      .ok (Host.set ⟨[]⟩ "out/l" (.hlink "a_b")) [.symlinkEv "a_b" "out/l"] false ∧
    pyReplaceSlash ({ wArgs with flatten := true } : Args).os_sep
        (decodeAscii (wImgSym.content 2)) = "a/b" ∧
    ("a_b" : String) ≠ "a/b" := by
  refine ⟨by decide, by decide, by decide⟩

/-- Claim C6 (amended): for a symbolic-link entry the Materializer reads
the full byte stream, decodes it as text and replaces every `/` with the
active separator — the host's `os.sep`, or `_` when `--flatten` is on —
then creates the destination link only when no link already exists there:
an existing link leaves the filesystem untouched, and a free destination
receives the translated target. -/
theorem c6_symlink_materialization :
    (∀ (chunk : Nat) (img : Image) (inode : Nat) (path rel name : String)
      (args : Args) (fs : Host),
      os_path_islink fs (dstPath args fs rel name .SYMBOLIC_LINK) = true →
      extractC chunk img inode path rel name .SYMBOLIC_LINK args fs = .ok fs [] false) ∧
    (∀ (chunk : Nat) (img : Image) (inode : Nat) (path rel name : String)
      (args : Args) (fs : Host),
      fs.lookup (dstPath args fs rel name .SYMBOLIC_LINK) = none →
      extractC chunk img inode path rel name .SYMBOLIC_LINK args fs =
        .ok (fs.set (dstPath args fs rel name .SYMBOLIC_LINK)
              (.hlink (pyReplaceSlash (if args.flatten then "_" else args.os_sep)
                (decodeAscii (img.content inode)))))
          [.symlinkEv (pyReplaceSlash (if args.flatten then "_" else args.os_sep)
              (decodeAscii (img.content inode)))
            (dstPath args fs rel name .SYMBOLIC_LINK)] false) := by
  constructor
  · intro chunk img inode path rel name args fs hlink
    simp [extractC, hlink]
  · intro chunk img inode path rel name args fs hnone
    have hlink : os_path_islink fs (dstPath args fs rel name .SYMBOLIC_LINK) = false := by
      simp [os_path_islink, hnone]
    simp [extractC, hlink, hnone]

theorem c6_witness :
    extractC 3 wImgSym 2 "" "" "l" .SYMBOLIC_LINK wArgs ⟨[("out/l", .hlink "old")]⟩ =
      .ok ⟨[("out/l", .hlink "old")]⟩ [] false ∧
    extractC 3 wImgSym 2 "" "" "l" .SYMBOLIC_LINK wArgs ⟨[]⟩ =
      .ok (Host.set ⟨[]⟩ (dstPath wArgs ⟨[]⟩ "" "l" .SYMBOLIC_LINK)
            (.hlink (pyReplaceSlash (if wArgs.flatten then "_" else wArgs.os_sep)
              (decodeAscii (wImgSym.content 2)))))
        [.symlinkEv (pyReplaceSlash (if wArgs.flatten then "_" else wArgs.os_sep)
            (decodeAscii (wImgSym.content 2)))
          (dstPath wArgs ⟨[]⟩ "" "l" .SYMBOLIC_LINK)] false :=
  ⟨c6_symlink_materialization.1 3 wImgSym 2 "" "" "l" wArgs ⟨[("out/l", .hlink "old")]⟩
     (by decide),
   c6_symlink_materialization.2 3 wImgSym 2 "" "" "l" wArgs ⟨[]⟩ (by decide)⟩

/-- Claim C1, counterexample: with two source paths of which the first
fails to resolve, the Driver aborts at the first failure — the run raises
with an empty trace (the second path is neither resolved nor extracted) —
although the second path on its own resolves and extracts fine. -/
theorem c1_counterexample :
    driverLoop wImgB wArgs 5 ["zz", "b"] ⟨[]⟩ = .exn ⟨[]⟩ [] (notFoundMsg "zz" "") ∧
    driverLoop wImgB wArgs 5 ["b"] ⟨[]⟩ =
      .ok ⟨[("out/b", .hfile [66])]⟩
        [.call 2 "" "" "b" .FILE, .writeFile "out/b" [66]] := by
  refine ⟨by decide, by decide⟩

/-- Claim C1 (amended): a resolution failure (or any other exception) on
one source path aborts the whole run — the remaining source paths are not
processed — and surfaces through the top-level handler as one
`Error: <message>` line with exit status 10. -/
theorem c1_failure_aborts_remaining :
    ∀ (img : Image) (args : Args) (fuel : Nat) (src : String) (rest : List String)
      (fs fs1 : Host) (evs1 : List Event) (m : String),
      for_path_do img args fuel img.root "" src fs = .exn fs1 evs1 m →
      driverLoop img args fuel (src :: rest) fs = .exn fs1 evs1 m ∧
      topLevel (driverLoop img args fuel (src :: rest) fs) = some (["Error: " ++ m], 10) := by
  intro img args fuel src rest fs fs1 evs1 m h
  simp [driverLoop, h, topLevel]

theorem c1_witness :
    driverLoop wImgB wArgs 5 ("zz" :: ["b"]) ⟨[]⟩ = .exn ⟨[]⟩ [] (notFoundMsg "zz" "") ∧
    topLevel (driverLoop wImgB wArgs 5 ("zz" :: ["b"]) ⟨[]⟩) =
      some (["Error: " ++ notFoundMsg "zz" ""], 10) :=
  c1_failure_aborts_remaining wImgB wArgs 5 "zz" ["b"] ⟨[]⟩ ⟨[]⟩ [] (notFoundMsg "zz" "")
    (by decide)

theorem splitChars_of_not_mem (c : Char) :
    ∀ l : List Char, c ∉ l → splitChars c l = [l] := by
  intro l
  induction l with
  | nil => intro _; rfl
  | cons x xs ih =>
    intro h
    rw [splitChars, ih (fun hx => h (List.mem_cons_of_mem _ hx))]
    have hx : (x == c) = false := by
      simp only [beq_eq_false_iff_ne, ne_eq]
      exact fun he => h (he ▸ List.mem_cons_self _ _)
    simp [hx]

/-- Claim C10: a source specifier without `:` keeps the whole text as the
image name and gets `.` as its path-within-image; a specifier's path and
the destination directory each lose one trailing slash. -/
theorem c10_source_parsing :
    (∀ s : String, colonChar ∉ s.data → splitColon1 s = (s, none)) ∧
    (∀ imgf s : String, colonChar ∉ s.data →
      parseSpecifier imgf s =
        if s = imgf then .ok "." else
          .error ("Single command can only extract from one image, not " ++
            sq ++ s ++ sq ++ ".")) ∧
    (∀ imgf s p : String, splitColon1 s = (imgf, some p) →
      parseSpecifier imgf s = .ok (stripTrailingSlash p)) ∧
    (∀ p : String, endsWithS "/" p = true → stripTrailingSlash p = dropLastChar p) ∧
    (∀ d : String, endsWithS "/" d = true → mainNormalizeDirectory d = dropLastChar d) := by
  have hbase : ∀ s : String, colonChar ∉ s.data → splitColon1 s = (s, none) := by
    intro s h
    have hsc : pySplit colonChar s = [s] := by
      rw [pySplit, splitChars_of_not_mem colonChar s.data h]
      rfl
    rw [splitColon1, hsc]
  refine ⟨hbase, ?_, ?_, ?_, ?_⟩
  · intro imgf s h
    rw [parseSpecifier, hbase s h]
    by_cases hs : s = imgf
    · simp [hs, stripTrailingSlash, endsWithS]
    · simp [hs]
  · intro imgf s p h
    rw [parseSpecifier, h]
    simp
  · intro p h
    simp [stripTrailingSlash, h]
  · intro d h
    simp [mainNormalizeDirectory, stripTrailingSlash, h]

theorem c10_witness :
    splitColon1 "img" = ("img", none) ∧
    parseSpecifier "img" "img" = .ok "." ∧
    parseSpecifier "img" "img:p/" = .ok (stripTrailingSlash "p/") ∧
    stripTrailingSlash "p/" = dropLastChar "p/" ∧
    mainNormalizeDirectory "out/" = dropLastChar "out/" := by
  refine ⟨c10_source_parsing.1 "img" (by decide), ?_, ?_, ?_, ?_⟩
  · have h := c10_source_parsing.2.1 "img" "img" (by decide)
    simpa using h
  · exact c10_source_parsing.2.2.1 "img" "img:p/" "p/" (by decide)
  · exact c10_source_parsing.2.2.2.1 "p/" (by decide)
  · exact c10_source_parsing.2.2.2.2 "out/" (by decide)

/-- Claim C3: with `--conflict-rename` on, a non-directory entry whose
computed destination is occupied goes to `with_stem(stem + "_i")` for the
SMALLEST positive `i` whose path is free (first conjunct, with the fuel
bound that the Python `while` loop's guaranteed termination justifies);
consequently two source files mapping to the same destination yield two
distinct destination files — the first at the plain path, the second at
the `_1`-stem path — neither overwriting the other (second conjunct). -/
theorem c3_conflict_rename :
    (∀ (args : Args) (fs : Host) (rel name : String) (ty : InodeType) (j : Nat),
      args.conflict_rename = true → ty ≠ .DIRECTORY →
      1 ≤ j → j ≤ fs.entries.length + 2 →
      pyExistsOrLink fs (candidate (dstBase args rel name) j) = false →
      (∀ k, k < j → pyExistsOrLink fs (candidate (dstBase args rel name) k) = true) →
      dstPath args fs rel name ty = candidate (dstBase args rel name) j) ∧
    (∀ (chunk : Nat) (img : Image) (i1 i2 : Nat) (path rel name : String)
      (args : Args) (fs : Host),
      args.conflict_rename = true → args.platform_win32 = false → 0 < chunk →
      fs.lookup (dstBase args rel name) = none →
      fs.lookup (candidate (dstBase args rel name) 1) = none →
      extractC chunk img i1 path rel name .FILE args fs =
        .ok (fs.set (dstBase args rel name) (.hfile (img.content i1)))
          [.writeFile (dstBase args rel name) (img.content i1)] false ∧
      extractC chunk img i2 path rel name .FILE args
          (fs.set (dstBase args rel name) (.hfile (img.content i1))) =
        .ok ((fs.set (dstBase args rel name) (.hfile (img.content i1))).set
              (candidate (dstBase args rel name) 1) (.hfile (img.content i2)))
          [.writeFile (candidate (dstBase args rel name) 1) (img.content i2)] false ∧
      ((fs.set (dstBase args rel name) (.hfile (img.content i1))).set
          (candidate (dstBase args rel name) 1) (.hfile (img.content i2))).lookup
          (dstBase args rel name) = some (.hfile (img.content i1)) ∧
      ((fs.set (dstBase args rel name) (.hfile (img.content i1))).set
          (candidate (dstBase args rel name) 1) (.hfile (img.content i2))).lookup
          (candidate (dstBase args rel name) 1) = some (.hfile (img.content i2)) ∧
      candidate (dstBase args rel name) 1 ≠ dstBase args rel name) := by
  constructor
  · intro args fs rel name ty j hcr hty hj hfuel hfree hocc
    have hu : dstPath args fs rel name ty = uniquify fs (dstBase args rel name) := by
      simp [dstPath, hcr, hty]
    rw [hu]
    exact uniquify_min fs _ j hfuel hfree hocc
  · intro chunk img i1 i2 path rel name args fs hcr hwin hc h0 h1
    have hne : candidate (dstBase args rel name) 1 ≠ dstBase args rel name :=
      candidate_pos_ne (dstBase args rel name) 1 (by omega)
    -- the first extraction materializes at the plain destination
    have hd1 : dstPath args fs rel name .FILE = dstBase args rel name := by
      have hu : dstPath args fs rel name .FILE = uniquify fs (dstBase args rel name) := by
        simp [dstPath, hcr]
      rw [hu, ← candidate_zero (dstBase args rel name)]
      exact uniquify_min fs _ 0 (by omega)
        (by rw [candidate_zero]; exact pyExistsOrLink_none fs _ h0)
        (fun k hk => absurd hk (by omega))
    have hwa1 : waAdjust args (dstPath args fs rel name .FILE) = dstBase args rel name := by
      rw [hd1]
      simp [waAdjust, hwin]
    have e1 := extract_file_eq chunk img i1 path rel name args fs hc
      (by rw [hwa1, h0]; simp)
    rw [hwa1] at e1
    refine ⟨e1, ?_⟩
    -- the host after the first extraction
    have hfs1base : (fs.set (dstBase args rel name) (.hfile (img.content i1))).lookup
        (dstBase args rel name) = some (.hfile (img.content i1)) := by
      rw [host_lookup_set]
      simp
    have hfs1cand : (fs.set (dstBase args rel name) (.hfile (img.content i1))).lookup
        (candidate (dstBase args rel name) 1) = none := by
      rw [host_lookup_set, if_neg (fun h => hne h.symm)]
      exact h1
    -- the second extraction renames to the _1 stem
    have hd2 : dstPath args (fs.set (dstBase args rel name) (.hfile (img.content i1)))
        rel name .FILE = candidate (dstBase args rel name) 1 := by
      have hu : dstPath args (fs.set (dstBase args rel name) (.hfile (img.content i1)))
          rel name .FILE =
          uniquify (fs.set (dstBase args rel name) (.hfile (img.content i1)))
            (dstBase args rel name) := by
        simp [dstPath, hcr]
      rw [hu]
      apply uniquify_min _ _ 1 (by omega)
        (pyExistsOrLink_none _ _ hfs1cand)
      intro k hk
      have hk0 : k = 0 := by omega
      rw [hk0, candidate_zero]
      exact pyExistsOrLink_some _ _ _ hfs1base
    have hwa2 : waAdjust args (dstPath args
        (fs.set (dstBase args rel name) (.hfile (img.content i1))) rel name .FILE) =
        candidate (dstBase args rel name) 1 := by
      rw [hd2]
      simp [waAdjust, hwin]
    have e2 := extract_file_eq chunk img i2 path rel name args
      (fs.set (dstBase args rel name) (.hfile (img.content i1))) hc
      (by rw [hwa2, hfs1cand]; simp)
    rw [hwa2] at e2
    refine ⟨e2, ?_, ?_, hne⟩
    · rw [host_lookup_set, if_neg hne]
      exact hfs1base
    · rw [host_lookup_set]
      simp

theorem c3_witness :
    extractC 3 wImgB 2 "" "" "b.txt" .FILE { wArgs with conflict_rename := true } ⟨[]⟩ =
      .ok (Host.set ⟨[]⟩ (dstBase { wArgs with conflict_rename := true } "" "b.txt")
            (.hfile (wImgB.content 2)))
        [.writeFile (dstBase { wArgs with conflict_rename := true } "" "b.txt")
            (wImgB.content 2)] false ∧
    extractC 3 wImgB 2 "" "" "b.txt" .FILE { wArgs with conflict_rename := true }
        (Host.set ⟨[]⟩ (dstBase { wArgs with conflict_rename := true } "" "b.txt")
          (.hfile (wImgB.content 2))) =
      .ok ((Host.set ⟨[]⟩ (dstBase { wArgs with conflict_rename := true } "" "b.txt")
              (.hfile (wImgB.content 2))).set
            (candidate (dstBase { wArgs with conflict_rename := true } "" "b.txt") 1)
            (.hfile (wImgB.content 2)))
        [.writeFile (candidate (dstBase { wArgs with conflict_rename := true } "" "b.txt") 1)
            (wImgB.content 2)] false ∧
    candidate (dstBase { wArgs with conflict_rename := true } "" "b.txt") 1 = "out/b_1.txt" := by
  have h := c3_conflict_rename.2 3 wImgB 2 2 "" "" "b.txt"
    { wArgs with conflict_rename := true } ⟨[]⟩
    (by decide) (by decide) (by decide) (by decide) (by decide)
  exact ⟨h.1, h.2.1, by decide⟩

/-- Claim C4, counterexample: with `--flatten`, recursive mode on and an
EMPTY destination root, the file at logical path `a/f` is materialized at
destination `a/f` — the first component is joined with `/`, not collapsed
into `_` — so it is neither directly under the destination root nor named
by its collapsed logical path `a_f`. -/
theorem c4_counterexample :
    for_all_entries_do wImgDeep wArgsFlatNoDir 3 1 "" "" ⟨[]⟩ =
      .ok ⟨[("a/f", .hfile [65])]⟩
        [.call 2 "" "" "a" .DIRECTORY, .call 3 "/a" "a" "f" .FILE,
          .writeFile "a/f" [65]] ∧
    ¬ noSlash "a/f" ∧ ("a/f" : String) ≠ "a_f" := by
  refine ⟨by decide, by unfold noSlash; decide, by decide⟩

/-- Claim C4 (amended): with `--flatten` on, no walk creates a destination
directory; and when in addition the destination root is non-empty and no
other path-adjusting feature applies (`--conflict-rename` off, the win32
filename workaround inactive), every regular file a walk writes lands
directly under the destination root under a slash-free name (second
conjunct), that name being the entry's relative path and entry name
collapsed with `_` (third conjunct, the Materializer's destination
formula). -/
theorem c4_flatten_layout :
    (∀ (img : Image) (args : Args) (fuel inode : Nat) (fp p : String) (fs : Host)
      (d : String),
      args.flatten = true →
      Event.mkdir d ∉ (for_all_entries_do img args fuel inode fp p fs).evs) ∧
    (∀ (img : Image) (args : Args) (fuel inode : Nat) (fp p : String) (fs : Host),
      args.flatten = true → args.directory ≠ "" → args.conflict_rename = false →
      args.platform_win32 = false →
      (∀ i e, e ∈ img.dirEntries i → noSlash e.1) → noSlash p →
      ∀ d data, Event.writeFile d data ∈ (for_all_entries_do img args fuel inode fp p fs).evs →
      ∃ s, noSlash s ∧ d = args.directory ++ "/" ++ s) ∧
    (∀ (chunk : Nat) (img : Image) (inode : Nat) (path rel name : String)
      (args : Args) (fs : Host),
      args.flatten = true → args.directory ≠ "" → args.conflict_rename = false →
      args.platform_win32 = false → 0 < chunk →
      fs.lookup (args.directory ++ "/" ++ (if rel = "" then name else rel ++ "_" ++ name))
        ≠ some .hdir →
      extractC chunk img inode path rel name .FILE args fs =
        .ok (fs.set (args.directory ++ "/" ++ (if rel = "" then name else rel ++ "_" ++ name))
              (.hfile (img.content inode)))
          [.writeFile (args.directory ++ "/" ++ (if rel = "" then name else rel ++ "_" ++ name))
              (img.content inode)] false) := by
  refine ⟨?_, ?_, ?_⟩
  · intro img args fuel inode fp p fs d hfl
    exact walkList_flatten_no_mkdir img args hfl fuel (img.dirEntries inode) fp p fs d
      (fun e he => ⟨inode, he⟩)
  · intro img args fuel inode fp p fs hfl hdir hcr hwin hnames hp d data hmem
    exact walkList_flatten_writes img args hfl hdir hcr hwin hnames fuel
      (img.dirEntries inode) fp p fs (fun e he => ⟨inode, he⟩) hp d data hmem
  · intro chunk img inode path rel name args fs hfl hdir hcr hwin hc hnd
    have hwa : waAdjust args (dstPath args fs rel name .FILE) =
        args.directory ++ "/" ++ (if rel = "" then name else rel ++ "_" ++ name) := by
      rw [dstPath_no_rename args fs rel name .FILE hcr]
      rw [show waAdjust args (dstBase args rel name) = dstBase args rel name by
        simp [waAdjust, hwin]]
      exact dstBase_flatten_eq args hfl hdir rel name
    have h := extract_file_eq chunk img inode path rel name args fs hc (by rw [hwa]; exact hnd)
    rw [hwa] at h
    exact h

theorem c4_witness :
    Event.mkdir "out/a" ∉ (for_all_entries_do wImgDeep wArgsFlat 3 1 "" "" ⟨[]⟩).evs ∧
    extractC 3 wImgDeep 3 "/a" "a" "f" .FILE wArgsFlat ⟨[]⟩ =
      .ok (Host.set ⟨[]⟩ (wArgsFlat.directory ++ "/" ++
            (if ("a" : String) = "" then "f" else "a" ++ "_" ++ "f"))
            (.hfile (wImgDeep.content 3)))
        [.writeFile (wArgsFlat.directory ++ "/" ++
            (if ("a" : String) = "" then "f" else "a" ++ "_" ++ "f"))
            (wImgDeep.content 3)] false :=
  ⟨c4_flatten_layout.1 wImgDeep wArgsFlat 3 1 "" "" ⟨[]⟩ "out/a" (by decide),
   c4_flatten_layout.2.2 3 wImgDeep 3 "/a" "a" "f" wArgsFlat ⟨[]⟩
     (by decide) (by decide) (by decide) (by decide) (by decide) (by decide)⟩

/-- Claim C9: the Recursive Walker's contract.  First conjunct: a
completed walk of a directory's enumeration invokes the Materializer
exactly once per enumerated triple, in enumeration order (the calls
recorded at the walk's own container path are exactly the entry list,
mapped).  Second conjunct: entries named `.` or `..` of directory type are
passed to the Materializer but are no-ops — no host action, no event, and
a `false` descend signal, so the Walker never recurses into them.  Third
and fourth conjuncts: after one Materializer invocation the Walker
proceeds directly to the remaining entries when the descend signal is
`false`, and walks the child's own enumeration (under the extended
container and relative paths) before the remaining entries when it is
`true`. -/
theorem c9_walker_contract :
    (∀ (img : Image) (args : Args) (fuel inode : Nat) (fp p : String)
      (fs fs2 : Host) (evs : List Event),
      for_all_entries_do img args fuel inode fp p fs = .ok fs2 evs →
      callsTo fp evs = (img.dirEntries inode).map (fun e => Event.call e.2.1 fp p e.1 e.2.2)) ∧
    (∀ (chunk : Nat) (img : Image) (inode : Nat) (fp p : String) (args : Args) (fs : Host),
      extractC chunk img inode fp p "." .DIRECTORY args fs = .ok fs [] false ∧
      extractC chunk img inode fp p ".." .DIRECTORY args fs = .ok fs [] false) ∧
    (∀ (img : Image) (args : Args) (fuel : Nat) (n : String) (idx : Nat) (ty : InodeType)
      (rest : List DirEntry) (fp p : String) (fs fs1 : Host) (evs1 : List Event),
      extract img idx fp p n ty args fs = .ok fs1 evs1 false →
      walkList img args (fuel + 1) ((n, idx, ty) :: rest) fp p fs =
        prependEvs (Event.call idx fp p n ty :: evs1)
          (walkList img args fuel rest fp p fs1)) ∧
    (∀ (img : Image) (args : Args) (fuel : Nat) (n : String) (idx : Nat) (ty : InodeType)
      (rest : List DirEntry) (fp p : String) (fs fs1 : Host) (evs1 : List Event),
      extract img idx fp p n ty args fs = .ok fs1 evs1 true →
      walkList img args (fuel + 1) ((n, idx, ty) :: rest) fp p fs =
        match for_all_entries_do img args fuel idx (fp ++ "/" ++ n)
            (if p = "" then n else p ++ (if args.flatten then "_" else "/") ++ n) fs1 with
        | .div => .div
        | .exn fs2 evs2 m => .exn fs2 ((Event.call idx fp p n ty :: evs1) ++ evs2) m
        | .ok fs2 evs2 =>
          prependEvs ((Event.call idx fp p n ty :: evs1) ++ evs2)
            (walkList img args fuel rest fp p fs2)) := by
  refine ⟨?_, ?_, ?_, ?_⟩
  · intro img args fuel inode fp p fs fs2 evs h
    exact walkList_callsTo img args fuel (img.dirEntries inode) fp p fs fs2 evs
      (fun e he => ⟨inode, he⟩) h
  · intro chunk img inode fp p args fs
    constructor <;> rfl
  · intro img args fuel n idx ty rest fp p fs fs1 evs1 h
    simp only [walkList, for_all_entries_do, h]
    simp
  · intro img args fuel n idx ty rest fp p fs fs1 evs1 h
    simp only [walkList, for_all_entries_do, h]
    simp

theorem c9_witness :
    for_all_entries_do wImgDeep wArgsFlat 3 1 "" "" ⟨[]⟩ =
      .ok ⟨[("out/a_f", .hfile [65])]⟩
        [.call 2 "" "" "a" .DIRECTORY, .call 3 "/a" "a" "f" .FILE,
          .writeFile "out/a_f" [65]] ∧
    callsTo ""
        [.call 2 "" "" "a" .DIRECTORY, .call 3 "/a" "a" "f" .FILE,
          .writeFile "out/a_f" [65]] =
      (wImgDeep.dirEntries 1).map (fun e => Event.call e.2.1 "" "" e.1 e.2.2) ∧
    extractC 3 wImgDeep 1 "" "" "." .DIRECTORY wArgs ⟨[]⟩ = .ok ⟨[]⟩ [] false ∧
    extractC 3 wImgDeep 1 "" "" ".." .DIRECTORY wArgs ⟨[]⟩ = .ok ⟨[]⟩ [] false :=
  ⟨by decide,
   c9_walker_contract.1 wImgDeep wArgsFlat 3 1 "" "" ⟨[]⟩ ⟨[("out/a_f", .hfile [65])]⟩
     [.call 2 "" "" "a" .DIRECTORY, .call 3 "/a" "a" "f" .FILE, .writeFile "out/a_f" [65]]
     (by decide),
   (c9_walker_contract.2.1 3 wImgDeep 1 "" "" wArgs ⟨[]⟩).1,
   (c9_walker_contract.2.1 3 wImgDeep 1 "" "" wArgs ⟨[]⟩).2⟩

end Ext4Cp
